import Mathlib

/-!
Verification of the Ember-REST resource library (src/ember-rest.js).

The JavaScript code is shallowly embedded: JS values become the inductive
type `JVal`, Ember objects become association lists from property names to
values, and the promise-based operations become pure functions that return
either the constructed HTTP request descriptor or the rejection value.
A small reference/heap model is introduced further down solely for the
aliasing behaviour of `duplicateProperties` / `copy`.
-/

set_option maxRecDepth 4000

namespace EmberRest

/-- A JavaScript value. Numbers are modelled as integers (the repository
only ever manipulates ids and plain JSON payloads; floating point is out
of scope). `func` is an opaque function value, tagged for distinctness;
it matters because `deserializeProperty` tests `typeof ... === "function"`. -/
inductive JVal where
  | undefined
  | null
  | bool (b : Bool)
  | num (n : Int)
  | str (s : String)
  | arr (elems : List JVal)
  | obj (fields : List (String × JVal))
  | func (tag : Nat)
deriving Repr

/-- Decidable equality for `JVal` (the derive handler struggles with the
nested `List`s, so it is written out by structural recursion). -/
def JVal.beq : JVal → JVal → Bool
  | .undefined, .undefined => true
  | .null, .null => true
  | .bool a, .bool b => a == b
  | .num a, .num b => a == b
  | .str a, .str b => a == b
  | .arr a, .arr b => beqList a b
  | .obj a, .obj b => beqFields a b
  | .func a, .func b => a == b
  | _, _ => false
where
  beqList : List JVal → List JVal → Bool
    | [], [] => true
    | x :: xs, y :: ys => x.beq y && beqList xs ys
    | _, _ => false
  beqFields : List (String × JVal) → List (String × JVal) → Bool
    | [], [] => true
    | (k, x) :: xs, (l, y) :: ys => k == l && x.beq y && beqFields xs ys
    | _, _ => false

mutual
theorem JVal.beq_eq : ∀ a b : JVal, JVal.beq a b = true → a = b
  | .undefined, .undefined, _ => rfl
  | .null, .null, _ => rfl
  | .bool _, .bool _, h => by
      simpa [JVal.beq] using congrArg JVal.bool (by exact of_decide_eq_true (by simpa [JVal.beq] using h))
  | .num _, .num _, h => by
      have := of_decide_eq_true (by simpa [JVal.beq] using h)
      simp [this]
  | .str _, .str _, h => by
      have := of_decide_eq_true (by simpa [JVal.beq] using h)
      simp [this]
  | .arr a, .arr b, h => by
      have := JVal.beqList_eq a b (by simpa [JVal.beq] using h)
      simp [this]
  | .obj a, .obj b, h => by
      have := JVal.beqFields_eq a b (by simpa [JVal.beq] using h)
      simp [this]
  | .func _, .func _, h => by
      have := of_decide_eq_true (by simpa [JVal.beq] using h)
      simp [this]

theorem JVal.beqList_eq : ∀ a b : List JVal, JVal.beq.beqList a b = true → a = b
  | [], [], _ => rfl
  | x :: xs, y :: ys, h => by
      rw [JVal.beq.beqList] at h
      have h1 := Bool.and_elim_left h
      have h2 := Bool.and_elim_right h
      have := JVal.beq_eq x y h1
      have := JVal.beqList_eq xs ys h2
      simp_all

theorem JVal.beqFields_eq :
    ∀ a b : List (String × JVal), JVal.beq.beqFields a b = true → a = b
  | [], [], _ => rfl
  | (k, x) :: xs, (l, y) :: ys, h => by
      rw [JVal.beq.beqFields] at h
      have h1 := Bool.and_elim_left (Bool.and_elim_left h)
      have h2 := Bool.and_elim_right (Bool.and_elim_left h)
      have h3 := Bool.and_elim_right h
      have hk : k = l := of_decide_eq_true (by simpa using h1)
      have hx := JVal.beq_eq x y h2
      have hxs := JVal.beqFields_eq xs ys h3
      simp_all
end

mutual
theorem JVal.beq_refl : ∀ a : JVal, JVal.beq a a = true
  | .undefined => rfl
  | .null => rfl
  | .bool b => by simp [JVal.beq]
  | .num n => by simp [JVal.beq]
  | .str s => by simp [JVal.beq]
  | .arr a => by rw [JVal.beq]; exact JVal.beqList_refl a
  | .obj a => by rw [JVal.beq]; exact JVal.beqFields_refl a
  | .func t => by simp [JVal.beq]

theorem JVal.beqList_refl : ∀ a : List JVal, JVal.beq.beqList a a = true
  | [] => rfl
  | x :: xs => by
      rw [JVal.beq.beqList]
      simp [JVal.beq_refl x, JVal.beqList_refl xs]

theorem JVal.beqFields_refl : ∀ a : List (String × JVal), JVal.beq.beqFields a a = true
  | [] => rfl
  | (k, x) :: xs => by
      rw [JVal.beq.beqFields]
      simp [JVal.beq_refl x, JVal.beqFields_refl xs]
end

instance : DecidableEq JVal := fun a b =>
  if h : JVal.beq a b = true then
    .isTrue (JVal.beq_eq a b h)
  else
    .isFalse (fun hab => h (hab ▸ JVal.beq_refl a))

/-! ### Association lists

JS objects (and Ember object instances) are modelled as association lists
from keys to values, in property-insertion order, with unique keys kept by
construction: `setKey` overwrites an existing key in place and otherwise
appends, which is exactly JS property-assignment semantics. -/

/-- Property read: value of the first binding of `p`, if any. -/
def lookupKey {κ α : Type} [DecidableEq κ] : List (κ × α) → κ → Option α
  | [], _ => none
  | (k, w) :: rest, p => if k = p then some w else lookupKey rest p

/-- Property write: overwrite the binding of `p` if present, else append
(JS assignment keeps the original insertion position of an existing key). -/
def setKey {κ α : Type} [DecidableEq κ] : List (κ × α) → κ → α → List (κ × α)
  | [], p, v => [(p, v)]
  | (k, w) :: rest, p, v =>
      if k = p then (p, v) :: rest else (k, w) :: setKey rest p v

theorem lookupKey_setKey_same {κ α : Type} [DecidableEq κ]
    (l : List (κ × α)) (p : κ) (v : α) : lookupKey (setKey l p v) p = some v := by
  induction l with
  | nil => simp [setKey, lookupKey]
  | cons kw rest ih =>
      obtain ⟨k, w⟩ := kw
      by_cases h : k = p
      · simp [setKey, lookupKey, h]
      · simp [setKey, lookupKey, h, ih]

theorem lookupKey_setKey_other {κ α : Type} [DecidableEq κ]
    (l : List (κ × α)) (p q : κ) (v : α) (h : p ≠ q) :
    lookupKey (setKey l p v) q = lookupKey l q := by
  induction l with
  | nil => simp [setKey, lookupKey, h]
  | cons kw rest ih =>
      obtain ⟨k, w⟩ := kw
      by_cases hk : k = p
      · subst hk; simp [setKey, lookupKey, h]
      · simp [setKey, lookupKey, hk, ih]

/-! ### Basic JavaScript semantics used by the library -/

/-- JS truthiness (`if (x)`).  `undefined`, `null`, `false`, `0` and the
empty string are falsy; every object, array and function is truthy. -/
def truthy : JVal → Bool
  | .undefined => false
  | .null => false
  | .bool b => b
  | .num n => n != 0
  | .str s => !s.isEmpty
  | .arr _ => true
  | .obj _ => true
  | .func _ => true

/-- `typeof v === "function"`. -/
def isFunc : JVal → Bool
  | .func _ => true
  | _ => false

/-- `typeof v === "object"` (true for objects, arrays and `null`). -/
def typeofObject : JVal → Bool
  | .obj _ => true
  | .arr _ => true
  | .null => true
  | _ => false

/-- `Ember.isEmpty(v)`: `null`/`undefined`, zero-length strings and arrays,
and objects carrying a numeric `size`/`length` property equal to 0 are
empty; numbers, booleans and functions never are. -/
def isEmptyJVal : JVal → Bool
  | .undefined => true
  | .null => true
  | .str s => s.isEmpty
  | .arr xs => xs.isEmpty
  | .obj fs =>
      match lookupKey fs "size" with
      | some (.num n) => n == 0
      | _ =>
          match lookupKey fs "length" with
          | some (.num n) => n == 0
          | _ => false
  | .bool _ => false
  | .num _ => false
  | .func _ => false

/-- Field read on a JS object value; `undefined` for a missing field or a
non-object. -/
def jget : JVal → String → JVal
  | .obj fs, p => (lookupKey fs p).getD .undefined
  | _, _ => .undefined

mutual
/-- JS string coercion (`'' + v`), as used by `url + '/' + id`.  A function
has no faithful string form here; the placeholder is never reached by the
claims (ids are numbers or strings). -/
def jsToString : JVal → String
  | .undefined => "undefined"
  | .null => "null"
  | .bool true => "true"
  | .bool false => "false"
  | .num n => toString n
  | .str s => s
  | .arr xs => jsToStringElems xs
  | .obj _ => "[object Object]"
  | .func _ => "function"

/-- `Array.prototype.join(',')`: `null`/`undefined` elements print as
the empty string. -/
def jsToStringElems : List JVal → String
  | [] => ""
  | [.undefined] => ""
  | [.null] => ""
  | [x] => jsToString x
  | .undefined :: y :: rest => "," ++ jsToStringElems (y :: rest)
  | .null :: y :: rest => "," ++ jsToStringElems (y :: rest)
  | x :: y :: rest => jsToString x ++ "," ++ jsToStringElems (y :: rest)
end

/-! ### The `Ember.Resource` model

`Ember.Resource.extend({...})` produces a class; `ResourceClass` collects
the class-level configuration (`resourceIdField`, `resourceUrl`,
`resourceName`, `resourceProperties`) together with any plain default
property values / methods declared on the class body (`defaults`).  An
instance is the class plus its own property bindings; `create()` starts
from the class defaults.  The optional `validate` hook is a function of
the instance's state. -/

structure ResourceClass where
  resourceIdField : String := "id"
  resourceUrl : String
  resourceName : String := ""
  resourceProperties : List String := []
  defaults : List (String × JVal) := []

structure Resource where
  cls : ResourceClass
  fields : List (String × JVal)
  validate? : Option (List (String × JVal) → JVal) := none

/-- `Klass.create()`: a fresh instance carrying the class-level property
defaults. -/
def createResource (cls : ResourceClass) : Resource :=
  { cls := cls, fields := cls.defaults, validate? := none }

/-- `this.get(prop)`: `undefined` when the property is absent. -/
def Resource.get (r : Resource) (p : String) : JVal :=
  (lookupKey r.fields p).getD .undefined

/-- `this.set(prop, value)`. -/
def Resource.set (r : Resource) (p : String) (v : JVal) : Resource :=
  { r with fields := setKey r.fields p v }

/-- `serializeProperty(prop)` — default: `return this.get(prop);`. -/
def serializeProperty (r : Resource) (p : String) : JVal :=
  r.get p

/-- The inner dictionary built by `serialize()`:
`ret[name][prop] = this.serializeProperty(prop)` for each declared property. -/
def serializedProperties (r : Resource) : List (String × JVal) :=
  r.cls.resourceProperties.map (fun p => (p, serializeProperty r p))

/-- `serialize()`: `{ [resourceName]: { [prop]: serializeProperty(prop) } }`. -/
def serialize (r : Resource) : JVal :=
  .obj [(r.cls.resourceName, .obj (serializedProperties r))]

/-- `deserializeProperty(prop, value)`.  The source reads
`if (typeof this.prop !== "function") { this.set(prop, value); }`:
`this.prop` is the property literally named `"prop"`, not the property
named by the `prop` argument. -/
def deserializeProperty (r : Resource) (p : String) (v : JVal) : Resource :=
  if isFunc (r.get "prop") then r else r.set p v

/-- `deserialize(json)`: `for (var prop in json)` guarded by
`hasOwnProperty`, calling `deserializeProperty` on each own enumerable
key.  Objects enumerate their fields in insertion order; arrays enumerate
index keys "0", "1", …; strings enumerate index keys over their
characters; all other values have no own enumerable keys. -/
def deserialize (r : Resource) (json : JVal) : Resource :=
  match json with
  | .obj fs => fs.foldl (fun acc kv => deserializeProperty acc kv.1 kv.2) r
  | .arr xs =>
      xs.enum.foldl (fun acc iv => deserializeProperty acc (toString iv.1) iv.2) r
  | .str s =>
      s.toList.enum.foldl
        (fun acc ic => deserializeProperty acc (toString ic.1) (.str (String.singleton ic.2))) r
  | _ => r

/-- `_resourceId()`: `this.get(this.resourceIdField)`. -/
def Resource.resourceId (r : Resource) : JVal :=
  r.get r.cls.resourceIdField

/-- `isNew()`: `Ember.isEmpty(this._resourceId())`. -/
def isNew (r : Resource) : Bool :=
  isEmptyJVal r.resourceId

/-- `_resourceUrl()`: base `resourceUrl`, with `'/' + id` appended when
the id is not empty. -/
def Resource.resourceUrlOf (r : Resource) : String :=
  if !isEmptyJVal r.resourceId then
    r.cls.resourceUrl ++ "/" ++ jsToString r.resourceId
  else
    r.cls.resourceUrl

/-! ### JSON.stringify -/

/-- Escape one character for a JSON string literal. -/
def escChar (c : Char) : String :=
  if c = '"' then "\\\""
  else if c = '\\' then "\\\\"
  else if c = '\n' then "\\n"
  else if c = '\t' then "\\t"
  else if c = '\r' then "\\r"
  else String.singleton c

/-- A JSON string literal. -/
def jsonQuote (s : String) : String :=
  "\"" ++ String.join (s.toList.map escChar) ++ "\""

mutual
/-- `JSON.stringify(v)`; `none` when the result would be `undefined`
(top-level `undefined` or a function). -/
def jsonStringify : JVal → Option String
  | .undefined => none
  | .func _ => none
  | .null => some "null"
  | .bool true => some "true"
  | .bool false => some "false"
  | .num n => some (toString n)
  | .str s => some (jsonQuote s)
  | .arr xs => some ("[" ++ String.intercalate "," (jsonStringifyElems xs) ++ "]")
  | .obj fs =>
      some ("\x7b" ++ String.intercalate "," (jsonStringifyFields fs) ++ "\x7d")

/-- Array elements: `undefined` and functions stringify as `null`. -/
def jsonStringifyElems : List JVal → List String
  | [] => []
  | x :: xs => ((jsonStringify x).getD "null") :: jsonStringifyElems xs

/-- Object members: entries whose value would stringify to `undefined`
are dropped. -/
def jsonStringifyFields : List (String × JVal) → List String
  | [] => []
  | (k, v) :: rest =>
      match jsonStringify v with
      | none => jsonStringifyFields rest
      | some s => (jsonQuote k ++ ":" ++ s) :: jsonStringifyFields rest
end

/-! ### JSON.parse

A recursive-descent JSON parser, used to model
`JSON.parse(err.responseText)` in `Ember.ajaxPromise`'s error handler.
Numbers are restricted to (optionally signed) integer literals and
`\uXXXX` escapes are not decoded — both fall outside anything the claims
exercise; fuel is generous enough for any input the theorems touch. -/

def openBraceC : Char := Char.ofNat 123

def closeBraceC : Char := Char.ofNat 125

def skipWs : List Char → List Char
  | c :: cs =>
      if c = ' ' ∨ c = '\t' ∨ c = '\n' ∨ c = '\r' then skipWs cs else c :: cs
  | [] => []

/-- Parse the remainder of a JSON string literal (after the opening
quote), decoding escapes, up to and including the closing quote. -/
def parseStrChars : Nat → List Char → Option (String × List Char)
  | 0, _ => none
  | _, [] => none
  | fuel + 1, c :: cs =>
      if c = '"' then some ("", cs)
      else if c = '\\' then
        match cs with
        | [] => none
        | e :: cs' =>
            let dec? : Option Char :=
              if e = '"' then some '"'
              else if e = '\\' then some '\\'
              else if e = '/' then some '/'
              else if e = 'n' then some '\n'
              else if e = 't' then some '\t'
              else if e = 'r' then some '\r'
              else if e = 'b' then some (Char.ofNat 8)
              else if e = 'f' then some (Char.ofNat 12)
              else none
            match dec? with
            | none => none
            | some d =>
                match parseStrChars fuel cs' with
                | some (s, rest) => some (String.singleton d ++ s, rest)
                | none => none
      else
        match parseStrChars fuel cs with
        | some (s, rest) => some (String.singleton c ++ s, rest)
        | none => none

def parseJString (cs : List Char) : Option (String × List Char) :=
  parseStrChars (cs.length + 1) cs

def digitsToNat (ds : List Char) : Nat :=
  ds.foldl (fun a c => a * 10 + (c.toNat - 48)) 0

/-- Parse an integer JSON number literal. -/
def parseNum (cs : List Char) : Option (JVal × List Char) :=
  let signed := match cs with
    | '-' :: rest => (true, rest)
    | _ => (false, cs)
  let ds := signed.2.takeWhile Char.isDigit
  let rest := signed.2.dropWhile Char.isDigit
  if ds.isEmpty then none
  else
    let bad : Bool := match rest with
      | c :: _ => c == '.' || c == 'e' || c == 'E'
      | [] => false
    if bad then none
    else
      let n : Int := Int.ofNat (digitsToNat ds)
      some (.num (if signed.1 then -n else n), rest)

mutual
def parseVal : Nat → List Char → Option (JVal × List Char)
  | 0, _ => none
  | fuel + 1, cs =>
      match skipWs cs with
      | [] => none
      | c :: rest =>
          if c = '"' then
            match parseJString rest with
            | some (s, rest') => some (.str s, rest')
            | none => none
          else if c = '[' then
            match skipWs rest with
            | ']' :: rest' => some (.arr [], rest')
            | rest' =>
                match parseItems fuel rest' with
                | some (xs, rest'') => some (.arr xs, rest'')
                | none => none
          else if c = openBraceC then
            match skipWs rest with
            | d :: rest' =>
                if d = closeBraceC then some (.obj [], rest')
                else
                  match parseMembers fuel [] (d :: rest') with
                  | some (fs, rest'') => some (.obj fs, rest'')
                  | none => none
            | [] => none
          else if c = 't' then
            match rest with
            | 'r' :: 'u' :: 'e' :: rest' => some (.bool true, rest')
            | _ => none
          else if c = 'f' then
            match rest with
            | 'a' :: 'l' :: 's' :: 'e' :: rest' => some (.bool false, rest')
            | _ => none
          else if c = 'n' then
            match rest with
            | 'u' :: 'l' :: 'l' :: rest' => some (.null, rest')
            | _ => none
          else parseNum (c :: rest)

/-- One or more comma-separated array items, up to the closing bracket. -/
def parseItems : Nat → List Char → Option (List JVal × List Char)
  | 0, _ => none
  | fuel + 1, cs =>
      match parseVal fuel cs with
      | none => none
      | some (v, rest) =>
          match skipWs rest with
          | ',' :: rest' =>
              match parseItems fuel rest' with
              | some (xs, rest'') => some (v :: xs, rest'')
              | none => none
          | ']' :: rest' => some ([v], rest')
          | _ => none

/-- One or more `"key": value` members, up to the closing brace; members
are accumulated with `setKey`, matching JS duplicate-key semantics. -/
def parseMembers :
    Nat → List (String × JVal) → List Char → Option (List (String × JVal) × List Char)
  | 0, _, _ => none
  | fuel + 1, acc, cs =>
      match skipWs cs with
      | c :: rest =>
          if c = '"' then
            match parseJString rest with
            | some (k, rest1) =>
                match skipWs rest1 with
                | ':' :: rest2 =>
                    match parseVal fuel rest2 with
                    | some (v, rest3) =>
                        match skipWs rest3 with
                        | ',' :: rest4 => parseMembers fuel (setKey acc k v) rest4
                        | d :: rest4 =>
                            if d = closeBraceC then some (setKey acc k v, rest4)
                            else none
                        | [] => none
                    | none => none
                | _ => none
            | none => none
          else none
      | [] => none
end

/-- `JSON.parse(s)`, as `Option`: `none` models the thrown `SyntaxError`. -/
def jsonParse (s : String) : Option JVal :=
  match parseVal (2 * s.length + 4) s.toList with
  | some (v, rest) => if (skipWs rest).isEmpty then some v else none
  | none => none

/-! ### The request adapter (`Ember.ResourceAdapter._resourceRequest`) -/

/-- The parameter bag handed to `_resourceRequest` by the callers inside
this library (they pass `type` and optionally `data`; `url` and
`contentType` are always absent there but kept for faithfulness). -/
structure ReqInput where
  type : String
  url? : Option String := none
  contentType? : Option String := none
  data? : Option JVal := none

/-- A request body after `_resourceRequest` has processed it: either the
original value, or the `JSON.stringify`-ed text. -/
inductive ReqBody where
  | raw (v : JVal)
  | jsonString (s : String)
deriving Repr, DecidableEq

/-- The finished parameter bag handed to `jQuery.ajax`. -/
structure ReqParams where
  type : String
  url : String
  dataType : String
  contentType? : Option String
  data? : Option ReqBody
deriving Repr, DecidableEq

/-- `_resourceRequest(params)`: fills in `params.url` (falling back to
`_resourceUrl()` when absent or falsy), forces `dataType` to `'json'`,
and for PUT/POST without an explicit content type defaults it to
`application/json`, stringifying an object-valued body.  The
`_prepareResourceRequest` hook is undefined in the base library. -/
def resourceRequest (r : Resource) (p : ReqInput) : ReqParams :=
  let url := match p.url? with
    | some u => if u.isEmpty then r.resourceUrlOf else u
    | none => r.resourceUrlOf
  if p.contentType?.isNone && (p.type == "PUT" || p.type == "POST") then
    { type := p.type, url := url, dataType := "json",
      contentType? := some "application/json",
      data? := p.data?.map (fun v =>
        if typeofObject v then .jsonString ((jsonStringify v).getD "null") else .raw v) }
  else
    { type := p.type, url := url, dataType := "json",
      contentType? := p.contentType?, data? := p.data?.map .raw }

/-! ### Resource operations (`findResource`, `saveResource`,
`destroyResource`) -/

/-- `findResource()`: the GET request it issues. -/
def findResource (r : Resource) : ReqParams :=
  resourceRequest r { type := "GET" }

/-- `findResource()`'s success continuation: `self.deserialize(json)`. -/
def findThen (r : Resource) (json : JVal) : Resource :=
  deserialize r json

/-- The request built by `saveResource()` once validation has passed:
POST when new, PUT otherwise, with `this.serialize()` as data. -/
def mkSaveParams (r : Resource) : ReqParams :=
  resourceRequest r
    { type := if isNew r then "POST" else "PUT", data? := some (serialize r) }

/-- Outcome of `saveResource()` up to the network boundary: either the
promise is rejected with the validation error and no request is built, or
the request is handed to the adapter. -/
inductive SaveResult where
  | rejected (e : JVal)
  | request (p : ReqParams)

/-- `saveResource()`: `if (this.validate !== undefined)` run the hook and
reject with its result when truthy; otherwise issue the request. -/
def saveResource (r : Resource) : SaveResult :=
  match r.validate? with
  | some f =>
      let e := f r.fields
      if truthy e then .rejected e else .request (mkSaveParams r)
  | none => .request (mkSaveParams r)

/-- `saveResource()`'s success continuation:
`if (json) self.deserialize(json); return self;` — the promise resolves
with `self`, whose state this function returns. -/
def saveThen (r : Resource) (json : JVal) : Resource :=
  if truthy json then deserialize r json else r

/-- `destroyResource()`: the DELETE request it issues. -/
def destroyResource (r : Resource) : ReqParams :=
  resourceRequest r { type := "DELETE" }

/-! ### `Ember.ResourceController` -/

structure ResourceController where
  resourceType : ResourceClass
  resourceUrl? : Option String := none
  content : List Resource := []

/-- `load(json)`: create a resource of `resourceType`, deserialize `json`
into it and push it onto `content`. -/
def ResourceController.load (c : ResourceController) (json : JVal) : ResourceController :=
  { c with content := c.content ++ [deserialize (createResource c.resourceType) json] }

/-- `loadAll(json)`: `load` each array element in order. -/
def ResourceController.loadAll (c : ResourceController) (json : List JVal) : ResourceController :=
  json.foldl ResourceController.load c

/-- `clearAll()`: replaces `content` with `[]` (the per-resource
`destroy()` teardown has no observable state in this model). -/
def ResourceController.clearAll (c : ResourceController) : ResourceController :=
  { c with content := [] }

/-- `findAll()`'s success continuation: clear, load every element, and
resolve with `this.get('content')`. -/
def findAllThen (c : ResourceController) (json : List JVal) :
    ResourceController × List Resource :=
  let c1 := c.clearAll.loadAll json
  (c1, c1.content)

/-! ### Error normalization (`Ember.ajaxPromise`'s catch handler) -/

/-- The jqXHR object handed to the rejection handler on an ajax failure.
`responseJSON` is set by jQuery when it could parse the body as JSON;
`headers` is what `getAllResponseHeaders()` returns. -/
structure JqXHR where
  responseJSON : Option JVal
  headers : String
  responseText : String
  status : Int
deriving Repr, DecidableEq

/-- What reaches the catch handler: either a jqXHR (so
`err.getAllResponseHeaders` exists), or any other thrown value. -/
inductive CatchInput where
  | xhr (x : JqXHR)
  | plain (v : JVal)

/-- What the catch handler rethrows (the promise's rejection value). -/
inductive CatchOutcome where
  | err (e : JVal)
  | jsError
deriving Repr, DecidableEq

/-- `error.status = s` in non-strict mode: sets the field on an object,
is a silent no-op on other primitives, and throws a `TypeError` on
`null`/`undefined` (`jsError`).  On a parsed array JS would attach the
field as a non-index expando property, which `JVal.arr` cannot carry;
none of the theorems below relies on the array case. -/
def attachStatus (e : JVal) (s : JVal) : CatchOutcome :=
  match e with
  | .obj fs => .err (.obj (setKey fs "status" s))
  | .null => .jsError
  | .undefined => .jsError
  | v => .err v

def contentTypeJsonHeader : String := "Content-Type: application/json"

/-- Does the text start with the pattern (both as char lists)? -/
def startsWithChars : List Char → List Char → Bool
  | [], _ => true
  | _ :: _, [] => false
  | p :: ps, t :: ts => p == t && startsWithChars ps ts

/-- Does the pattern occur anywhere in the text? -/
def containsChars : List Char → List Char → Bool
  | pat, [] => startsWithChars pat []
  | pat, t :: ts => startsWithChars pat (t :: ts) || containsChars pat ts

/-- `headers.indexOf('Content-Type: application/json') !== -1`. -/
def hasJsonContentType (headers : String) : Bool :=
  containsChars contentTypeJsonHeader.toList headers.toList

/-- The `err.getAllResponseHeaders` branch: with a JSON content type,
`JSON.parse` the body (an empty object on a parse error) and attach the
status; otherwise just `{ status }`. -/
def headersBranch (x : JqXHR) : CatchOutcome :=
  if hasJsonContentType x.headers then
    match jsonParse x.responseText with
    | some j => attachStatus j (.num x.status)
    | none => .err (.obj [("status", .num x.status)])
  else .err (.obj [("status", .num x.status)])

/-- The catch handler of `Ember.ajaxPromise`. -/
def normalizeError : CatchInput → CatchOutcome
  | .xhr x =>
      match x.responseJSON with
      | some j =>
          if truthy j then attachStatus j (.num x.status)
          else headersBranch x
      | none => headersBranch x
  | .plain v =>
      if truthy (jget v "responseJSON") then
        attachStatus (jget v "responseJSON") (jget v "status")
      else .err v

/-! ### Heap model for `duplicateProperties` / `copy`

Value equality in the pure model cannot express aliasing, so the copy
path is additionally embedded over an explicit heap: arrays and objects
live in numbered cells and property values may be references.
`propVal.slice()` and `$.extend({}, propVal)` each allocate a fresh cell
holding the same one-level contents (element references are shared). -/

inductive HVal where
  | undefined
  | null
  | bool (b : Bool)
  | num (n : Int)
  | str (s : String)
  | ref (r : Nat)
  | func (tag : Nat)
deriving Repr, DecidableEq

inductive HCell where
  | arrC (elems : List HVal)
  | objC (fields : List (String × HVal))
deriving Repr, DecidableEq

structure Heap where
  next : Nat
  cells : List (Nat × HCell)
deriving Repr, DecidableEq

def lookupCell (h : Heap) (r : Nat) : Option HCell :=
  lookupKey h.cells r

def alloc (h : Heap) (c : HCell) : Heap × Nat :=
  ({ next := h.next + 1, cells := (h.next, c) :: h.cells }, h.next)

/-- Property read over heap fields. -/
def getHF (fs : List (String × HVal)) (p : String) : HVal :=
  (lookupKey fs p).getD .undefined

/-- The loop body of `duplicateProperties` applied to one property value:
`$.isArray(propVal)` → `propVal.slice()`; non-null `object` →
`$.extend({}, propVal)`; anything else is copied as a value.  (A dangling
reference cannot arise in JS; that case is unreachable under the
well-formedness hypothesis of the theorems.) -/
def dupVal (h : Heap) (v : HVal) : Heap × HVal :=
  match v with
  | .ref r =>
      match lookupCell h r with
      | some (.arrC es) => let a := alloc h (.arrC es); (a.1, .ref a.2)
      | some (.objC fs) => let a := alloc h (.objC fs); (a.1, .ref a.2)
      | none => let a := alloc h (.objC []); (a.1, .ref a.2)
  | w => (h, w)

def dupStep (src : List (String × HVal)) (acc : Heap × List (String × HVal))
    (p : String) : Heap × List (String × HVal) :=
  let d := dupVal acc.1 (getHF src p)
  (d.1, setKey acc.2 p d.2)

/-- `duplicateProperties(source, props)` over the heap, starting from the
fresh instance `tgt0` produced by `this.constructor.create()`. -/
def duplicatePropertiesH (h : Heap) (src tgt0 : List (String × HVal))
    (props : List String) : Heap × List (String × HVal) :=
  props.foldl (dupStep src) (h, tgt0)

/-- `copy()` over the heap: duplicate the declared properties into a
fresh instance, then `c.set(resourceIdField, this.get(resourceIdField))`
(note: the id value itself is not duplicated). -/
def copyH (h : Heap) (src tgt0 : List (String × HVal)) (props : List String)
    (idField : String) : Heap × List (String × HVal) :=
  let d := duplicatePropertiesH h src tgt0 props
  (d.1, setKey d.2 idField (getHF src idField))

/-- Mutate element `i` of the array cell `r` (e.g. `a[i] = v`). -/
def writeArr (h : Heap) (r : Nat) (i : Nat) (v : HVal) : Heap :=
  match lookupCell h r with
  | some (.arrC es) => { h with cells := setKey h.cells r (.arrC (es.set i v)) }
  | _ => h

/-! ### Auxiliary definitions used only to state theorems -/

/-- Value of the last binding of `q` in a (possibly duplicated-key)
list of assignments, if any; what a sequence of JS assignments leaves
behind. -/
def lastVal : List (String × JVal) → String → Option JVal
  | [], _ => none
  | (k, v) :: rest, q =>
      match lastVal rest q with
      | some w => some w
      | none => if k = q then some v else none

/-- Is the value a non-null JS primitive (number, string or boolean)? -/
def jsPrimitive : JVal → Bool
  | .bool _ => true
  | .num _ => true
  | .str _ => true
  | _ => false

/-- Does an object value carry a `status` field? -/
def hasStatusField : JVal → Bool
  | .obj fs => (lookupKey fs "status").isSome
  | _ => false

/-- Every reference occurring directly in a heap value is below `n`. -/
def hvalRefBound (n : Nat) : HVal → Bool
  | .ref r => decide (r < n)
  | _ => true

/-- All cell indices of a heap are below its allocation counter. -/
def Heap.wfBound (h : Heap) : Prop :=
  ∀ p ∈ h.cells, p.1 < h.next

/-- The one-level contents `slice()` / `$.extend({}, _)` copies out of a
cell. -/
def shallowContents : Option HCell → HCell
  | some c => c
  | none => .objC []

/-- How a copied property value relates to the source's after `copy()`:
non-reference values are equal, and a reference is replaced by a distinct
fresh reference whose cell holds the same one-level contents, such that
writing through the copy's reference leaves the source's cell
untouched. -/
def DupRel (h h' : Heap) : HVal → HVal → Prop
  | .ref r, w =>
      ∃ r', w = .ref r' ∧ r' ≠ r ∧
        lookupCell h' r = lookupCell h r ∧
        lookupCell h' r' = some (shallowContents (lookupCell h r)) ∧
        ∀ i x, lookupCell (writeArr h' r' i x) r = lookupCell h' r
  | v, w => w = v

/-! #### Concrete instances used by counterexamples and witnesses -/

def c1cls : ResourceClass :=
  { resourceUrl := "/contacts", resourceName := "contact",
    resourceProperties := ["name"] }

def c1src : Resource :=
  { cls := c1cls, fields := [("name", .str "Joe")] }

def c1clsW : ResourceClass :=
  { resourceUrl := "/contacts", resourceName := "contact",
    resourceProperties := ["name", "age"] }

def c1srcW : Resource :=
  { cls := c1clsW, fields := [("name", .str "Joe"), ("age", .num 30)] }

def c2clsA : ResourceClass :=
  { resourceUrl := "/people", defaults := [("fullName", .func 0)] }

def c2clsB : ResourceClass :=
  { resourceUrl := "/people", defaults := [("prop", .func 1)] }

def c3res : Resource :=
  { cls := { resourceUrl := "/contacts" }, fields := [],
    validate? := some (fun _ => .str "invalid") }

def c4xhr : JqXHR :=
  { responseJSON := none, headers := "Content-Type: application/json",
    responseText := "5", status := 422 }

def c4xhrW : JqXHR :=
  { responseJSON := none,
    headers := "Content-Type: application/json; charset=utf-8",
    responseText := "\x7b\"message\":\"bad\"\x7d", status := 422 }

def c5heap : Heap :=
  { next := 2, cells := [(0, .arrC [.ref 1]), (1, .arrC [.num 1])] }

def c5src : List (String × HVal) := [("tags", .ref 0)]

def c5heapW : Heap :=
  { next := 1, cells := [(0, .arrC [.num 1, .num 2])] }

def c5srcW : List (String × HVal) := [("tags", .ref 0), ("id", .num 7)]

def c7res7 : Resource :=
  { cls := { resourceUrl := "/contacts" }, fields := [("id", .num 7)] }

def c7res0 : Resource :=
  { cls := { resourceUrl := "/contacts" }, fields := [] }

def c8res : Resource :=
  { cls := c1clsW, fields := [("name", .str "Joe"), ("age", .num 30)] }

def c10res : Resource :=
  { cls := c1clsW, fields := [("id", .num 3), ("name", .str "Joe")] }

/-! ## Lemmas -/

theorem lookupKey_mem {κ α : Type} [DecidableEq κ]
    {l : List (κ × α)} {p : κ} {v : α} (h : lookupKey l p = some v) : (p, v) ∈ l := by
  induction l with
  | nil => simp [lookupKey] at h
  | cons kw rest ih =>
      obtain ⟨k, w⟩ := kw
      by_cases hk : k = p
      · subst hk
        simp [lookupKey] at h
        simp [h]
      · simp [lookupKey, hk] at h
        exact List.mem_cons_of_mem _ (ih h)

theorem Resource.get_set_same (r : Resource) (p : String) (v : JVal) :
    (r.set p v).get p = v := by
  simp [Resource.get, Resource.set, lookupKey_setKey_same]

theorem Resource.get_set_other (r : Resource) (p q : String) (v : JVal) (h : p ≠ q) :
    (r.set p v).get q = r.get q := by
  simp [Resource.get, Resource.set, lookupKey_setKey_other _ _ _ _ h]

theorem deserializeProperty_of_not_func (r : Resource) (p : String) (v : JVal)
    (h : isFunc (r.get "prop") = false) :
    deserializeProperty r p v = r.set p v := by
  simp [deserializeProperty, h]

/-- The accumulated effect of the `deserialize` loop over object fields:
as long as the instance's `"prop"` member never becomes a function, each
key ends with the last value assigned to it, and untouched keys keep
their prior values. -/
theorem deserialize_obj_get (fs : List (String × JVal)) :
    ∀ (r : Resource) (q : String),
      isFunc (r.get "prop") = false →
      (∀ kv ∈ fs, isFunc kv.2 = false) →
      (fs.foldl (fun acc kv => deserializeProperty acc kv.1 kv.2) r).get q
        = (lastVal fs q).getD (r.get q) := by
  induction fs with
  | nil => intro r q _ _; simp [lastVal]
  | cons kv rest ih =>
      intro r q hr hv
      obtain ⟨k, v⟩ := kv
      have hstep : deserializeProperty r k v = r.set k v :=
        deserializeProperty_of_not_func r k v hr
      have hr' : isFunc ((r.set k v).get "prop") = false := by
        by_cases hk : k = "prop"
        · subst hk
          rw [Resource.get_set_same]
          exact hv ("prop", v) (by simp)
        · rw [Resource.get_set_other r k "prop" v hk]
          exact hr
      have hv' : ∀ kv ∈ rest, isFunc kv.2 = false := fun kv hkv => hv kv (by simp [hkv])
      simp only [List.foldl_cons, hstep]
      rw [ih (r.set k v) q hr' hv']
      cases hlast : lastVal rest q with
      | some w => simp [lastVal, hlast]
      | none =>
          by_cases hk : k = q
          · subst hk
            simp [lastVal, hlast, Resource.get_set_same]
          · simp [lastVal, hlast, hk, Resource.get_set_other r k q v hk]

/-- `lastVal` over a `map`-built assignment list. -/
theorem lastVal_map (f : String → JVal) :
    ∀ (props : List String) (q : String),
      lastVal (props.map (fun p => (p, f p))) q
        = if q ∈ props then some (f q) else none := by
  intro props
  induction props with
  | nil => intro q; simp [lastVal]
  | cons p rest ih =>
      intro q
      simp only [List.map_cons, lastVal, ih]
      by_cases hq : q ∈ rest
      · simp [hq]
      · by_cases hpq : p = q
        · subst hpq
          simp [hq]
        · simp [hq, hpq, Ne.symm hpq]

theorem loadAll_content (js : List JVal) :
    ∀ c : ResourceController,
      (c.loadAll js).content
        = c.content ++ js.map (fun j => deserialize (createResource c.resourceType) j) := by
  induction js with
  | nil => intro c; simp [ResourceController.loadAll]
  | cons j rest ih =>
      intro c
      have : c.loadAll (j :: rest) = (c.load j).loadAll rest := by
        simp [ResourceController.loadAll]
      rw [this, ih (c.load j)]
      simp [ResourceController.load]

/-! ## Claim theorems -/

/-- Claim C2 (code evaluated at the failing inputs): the code reads
`typeof this.prop`, the property literally named `"prop"`, instead of the
property named by the argument.  Consequently (a) a key that names an
existing function-valued member is assigned anyway, clobbering it, and
(b) when the instance happens to own a function-valued member named
`"prop"`, no key at all is assigned. -/
theorem c2_deserialize_prop_bug :
    ((deserialize (createResource c2clsA) (.obj [("fullName", .str "clobbered")])).get
        "fullName" = .str "clobbered") ∧
    ((deserialize (createResource c2clsB) (.obj [("age", .num 5)])).get "age" = .undefined) := by
  constructor
  · rfl
  · rfl

/-- Claim C3: when the `validate()` hook exists and returns a truthy
value, `save()` builds no request and rejects with exactly the hook's
return value; when the hook is undefined or returns a falsy value, the
request proceeds. -/
theorem c3_validate_gate :
    (∀ (r : Resource) (f : List (String × JVal) → JVal),
        r.validate? = some f → truthy (f r.fields) = true →
        saveResource r = .rejected (f r.fields)) ∧
    (∀ (r : Resource) (f : List (String × JVal) → JVal),
        r.validate? = some f → truthy (f r.fields) = false →
        saveResource r = .request (mkSaveParams r)) ∧
    (∀ r : Resource, r.validate? = none →
        saveResource r = .request (mkSaveParams r)) := by
  refine ⟨fun r f hf ht => ?_, fun r f hf ht => ?_, fun r hf => ?_⟩
  · simp [saveResource, hf, ht]
  · simp [saveResource, hf, ht]
  · simp [saveResource, hf]

/-- Witness for C3 at a concrete resource whose hook returns the string
`"invalid"`. -/
theorem c3_validate_gate_witness :
    saveResource c3res = .rejected (.str "invalid") :=
  c3_validate_gate.1 c3res (fun _ => .str "invalid") rfl rfl

/-- Claim C6: `isNew()` is true iff the value of the configured id field
(`resourceIdField`, which defaults to `"id"`) is empty/undefined in the
sense of `Ember.isEmpty`. -/
theorem c6_isNew_iff :
    (∀ r : Resource, isNew r = true ↔
        isEmptyJVal (r.get r.cls.resourceIdField) = true) ∧
    (∀ url : String, ({ resourceUrl := url } : ResourceClass).resourceIdField = "id") :=
  ⟨fun _ => Iff.rfl, fun _ => rfl⟩

/-- Claim C7: find/save/destroy all target `_resourceUrl()`, which is the
base URL alone when the id is empty/unset and base URL + `/` + id
otherwise. -/
theorem c7_request_urls :
    (∀ r : Resource, isEmptyJVal r.resourceId = true →
        r.resourceUrlOf = r.cls.resourceUrl) ∧
    (∀ r : Resource, isEmptyJVal r.resourceId = false →
        r.resourceUrlOf = r.cls.resourceUrl ++ "/" ++ jsToString r.resourceId) ∧
    (∀ r : Resource,
        (destroyResource r).url = r.resourceUrlOf ∧
        (destroyResource r).type = "DELETE" ∧
        (findResource r).url = r.resourceUrlOf ∧
        (mkSaveParams r).url = r.resourceUrlOf) := by
  refine ⟨fun r h => ?_, fun r h => ?_, fun r => ⟨?_, rfl, rfl, ?_⟩⟩
  · simp [Resource.resourceUrlOf, h]
  · simp [Resource.resourceUrlOf, h]
  · rfl
  · by_cases h : isNew r <;>
      simp [mkSaveParams, resourceRequest, h]

/-- Witness for C7: a resource with id `7` and base `/contacts` targets
`/contacts/7` on DELETE; without an id it targets `/contacts`. -/
theorem c7_request_urls_witness :
    (destroyResource c7res7).url = "/contacts/7" ∧
    (destroyResource c7res7).type = "DELETE" ∧
    (destroyResource c7res0).url = "/contacts" := by
  refine ⟨?_, (c7_request_urls.2.2 c7res7).2.1, ?_⟩
  · rw [(c7_request_urls.2.2 c7res7).1,
      c7_request_urls.2.1 c7res7 (by decide)]
    decide
  · rw [(c7_request_urls.2.2 c7res0).1,
      c7_request_urls.1 c7res0 (by decide)]
    rfl

/-- Claim C9: after `findAll()` resolves with a JSON array, the
controller's contents are exactly one freshly created and deserialized
resource per array element, in array order, with all prior contents
discarded; the promise resolves with that set. -/
theorem c9_findAll_replaces (c : ResourceController) (js : List JVal) :
    (findAllThen c js).1.content
        = js.map (fun j => deserialize (createResource c.resourceType) j) ∧
    (findAllThen c js).2
        = js.map (fun j => deserialize (createResource c.resourceType) j) := by
  have h : (findAllThen c js).1.content
      = js.map (fun j => deserialize (createResource c.resourceType) j) := by
    show (c.clearAll.loadAll js).content = _
    rw [loadAll_content js c.clearAll]
    simp [ResourceController.clearAll]
  exact ⟨h, h⟩

/-- Claim C10: when the save request succeeds with an empty/falsy body,
`deserialize` is skipped and the operation resolves with the resource
unchanged. -/
theorem c10_save_empty_body (r : Resource) (json : JVal)
    (h : truthy json = false) : saveThen r json = r := by
  simp [saveThen, h]

/-- Witness for C10: an empty (`undefined`) response body leaves the
concrete resource untouched. -/
theorem c10_save_empty_body_witness : saveThen c10res .undefined = c10res :=
  c10_save_empty_body c10res .undefined rfl

/-- Claim C1 is false as stated: `serialize()` nests the declared
properties under `resourceName`, and `deserialize()` consumes flat keys.
Deserializing `serialize()`'s result into a fresh instance stores the
whole nested dictionary under the single key `"contact"` and leaves the
declared property `"name"` undefined. -/
theorem c1_counterexample :
    (deserialize (createResource c1cls) (serialize c1src)).get "name" = .undefined ∧
    c1src.get "name" = .str "Joe" ∧
    (deserialize (createResource c1cls) (serialize c1src)).get "contact"
      = .obj [("name", .str "Joe")] :=
  ⟨rfl, rfl, rfl⟩

/-- Claim C1 (amended): the round trip reproduces every declared
property on a freshly constructed instance of the same type when
`deserialize()` is applied to the inner object stored under
`resourceName` in `serialize()`'s result, provided no function value is
involved (so `deserializeProperty`'s `typeof this.prop` guard never
fires). -/
theorem c1_roundtrip_inner (src : Resource) (q : String)
    (hfresh : isFunc ((createResource src.cls).get "prop") = false)
    (hprops : ∀ p ∈ src.cls.resourceProperties, isFunc (src.get p) = false)
    (hq : q ∈ src.cls.resourceProperties) :
    (deserialize (createResource src.cls)
        (jget (serialize src) src.cls.resourceName)).get q = src.get q := by
  have hinner : jget (serialize src) src.cls.resourceName
      = .obj (serializedProperties src) := by
    simp [serialize, jget, lookupKey]
  rw [hinner]
  have hv : ∀ kv ∈ serializedProperties src, isFunc kv.2 = false := by
    intro kv hkv
    simp only [serializedProperties, List.mem_map] at hkv
    obtain ⟨p, hp, rfl⟩ := hkv
    exact hprops p hp
  show ((serializedProperties src).foldl
      (fun acc kv => deserializeProperty acc kv.1 kv.2) (createResource src.cls)).get q
      = src.get q
  rw [deserialize_obj_get (serializedProperties src) (createResource src.cls) q hfresh hv]
  have hlast : lastVal (serializedProperties src) q = some (serializeProperty src q) := by
    rw [serializedProperties, lastVal_map (fun p => serializeProperty src p)
      src.cls.resourceProperties q]
    simp [hq]
  rw [hlast]
  rfl

/-- Witness for the amended C1 at a two-property resource. -/
theorem c1_roundtrip_inner_witness :
    (deserialize (createResource c1srcW.cls)
        (jget (serialize c1srcW) c1srcW.cls.resourceName)).get "name" = .str "Joe" :=
  (c1_roundtrip_inner c1srcW "name" rfl (by decide) (by decide)).trans rfl

/-- Claim C8: once validation passes, `save()` issues POST when the
resource is new and PUT otherwise, at the resource URL, with JSON content
type and `JSON.stringify(this.serialize())` as the body; on a truthy
response body it deserializes the response into the resource and
resolves with the resource itself. -/
theorem c8_save_request (r : Resource) (json : JVal)
    (hval : r.validate? = none ∨
        ∃ f, r.validate? = some f ∧ truthy (f r.fields) = false)
    (hjson : truthy json = true) :
    saveResource r = .request (mkSaveParams r) ∧
    (mkSaveParams r).type = (if isNew r then "POST" else "PUT") ∧
    (mkSaveParams r).url = r.resourceUrlOf ∧
    (mkSaveParams r).contentType? = some "application/json" ∧
    (mkSaveParams r).data?
      = some (.jsonString ((jsonStringify (serialize r)).getD "null")) ∧
    (jsonStringify (serialize r)).isSome = true ∧
    saveThen r json = deserialize r json := by
  refine ⟨?_, ?_, ?_, ?_, ?_, ?_, ?_⟩
  · rcases hval with h | ⟨f, hf, ht⟩
    · simp [saveResource, h]
    · simp [saveResource, hf, ht]
  · by_cases h : isNew r <;> simp [mkSaveParams, resourceRequest, h]
  · by_cases h : isNew r <;> simp [mkSaveParams, resourceRequest, h]
  · by_cases h : isNew r <;> simp [mkSaveParams, resourceRequest, h]
  · by_cases h : isNew r <;>
      simp [mkSaveParams, resourceRequest, h, serialize, typeofObject]
  · simp [serialize, jsonStringify]
  · simp [saveThen, hjson]

/-- Witness for C8: a new resource saves via POST with the serialized
JSON text as the body. -/
theorem c8_save_request_witness :
    saveResource c8res = .request (mkSaveParams c8res) ∧
    (mkSaveParams c8res).type = "POST" ∧
    (mkSaveParams c8res).data?
      = some (.jsonString "\x7b\"contact\":\x7b\"name\":\"Joe\",\"age\":30\x7d\x7d") := by
  have h := c8_save_request c8res (.obj []) (Or.inl rfl) rfl
  exact ⟨h.1, h.2.1.trans (by decide), h.2.2.2.2.1.trans (by decide)⟩

/-- Claim C4 (amended): a failed response whose body was parsed (by
jQuery or from a declared JSON content type) to a JSON *object* rejects
with that object plus a `status` field; a JSON content type with an
unparsable body rejects with `{ status }`; a JSON content type whose
body parses to a bare primitive rejects with that primitive unchanged
(a `status` field cannot be attached to it); a non-jqXHR error value
without a truthy `responseJSON` field passes through unchanged. -/
theorem c4_error_normalization :
    (∀ (x : JqXHR) (fs : List (String × JVal)),
        x.responseJSON = some (.obj fs) →
        normalizeError (.xhr x) = .err (.obj (setKey fs "status" (.num x.status)))) ∧
    (∀ (x : JqXHR) (fs : List (String × JVal)),
        x.responseJSON = none → hasJsonContentType x.headers = true →
        jsonParse x.responseText = some (.obj fs) →
        normalizeError (.xhr x) = .err (.obj (setKey fs "status" (.num x.status)))) ∧
    (∀ x : JqXHR,
        x.responseJSON = none → hasJsonContentType x.headers = true →
        jsonParse x.responseText = none →
        normalizeError (.xhr x) = .err (.obj [("status", .num x.status)])) ∧
    (∀ (x : JqXHR) (p : JVal),
        x.responseJSON = none → hasJsonContentType x.headers = true →
        jsonParse x.responseText = some p → jsPrimitive p = true →
        normalizeError (.xhr x) = .err p) ∧
    (∀ v : JVal, truthy (jget v "responseJSON") = false →
        normalizeError (.plain v) = .err v) := by
  refine ⟨fun x fs h => ?_, fun x fs h hct hp => ?_, fun x h hct hp => ?_,
    fun x p h hct hp hprim => ?_, fun v h => ?_⟩
  · simp [normalizeError, h, truthy, attachStatus]
  · simp [normalizeError, h, headersBranch, hct, hp, attachStatus]
  · simp [normalizeError, h, headersBranch, hct, hp]
  · cases p <;> simp [jsPrimitive] at hprim <;>
      simp [normalizeError, h, headersBranch, hct, hp, attachStatus]
  · simp [normalizeError, h]

/-- Witness for C4 at the spec's example: a JSON content type with body
`{"message":"bad"}` and status 422 rejects with
`{message: "bad", status: 422}`. -/
theorem c4_error_normalization_witness :
    normalizeError (.xhr c4xhrW)
      = .err (.obj [("message", .str "bad"), ("status", .num 422)]) :=
  (c4_error_normalization.2.1 c4xhrW [("message", .str "bad")] rfl (by decide)
      (by decide)).trans (by decide)

/-- Claim C4 is false as stated at a primitive body: with a JSON content
type, body `5` and status 422, the rejection value is the bare number
`5`, which carries no `status` field (the non-strict-mode assignment
`error.status = 422` on a number primitive is a silent no-op). -/
theorem c4_counterexample :
    hasJsonContentType c4xhr.headers = true ∧
    jsonParse c4xhr.responseText = some (.num 5) ∧
    normalizeError (.xhr c4xhr) = .err (.num 5) ∧
    hasStatusField (.num 5) = false :=
  ⟨by decide, by decide, by decide, rfl⟩

/-! ## Heap lemmas for `copy()` -/

theorem getHF_setKey_same (fs : List (String × HVal)) (p : String) (v : HVal) :
    getHF (setKey fs p v) p = v := by
  simp [getHF, lookupKey_setKey_same]

theorem getHF_setKey_other (fs : List (String × HVal)) (p q : String) (v : HVal)
    (h : p ≠ q) : getHF (setKey fs p v) q = getHF fs q := by
  simp [getHF, lookupKey_setKey_other _ _ _ _ h]

theorem lookupCell_alloc_self (h : Heap) (c : HCell) :
    lookupCell (alloc h c).1 h.next = some c := by
  simp [lookupCell, alloc, lookupKey]

theorem lookupCell_alloc_other (h : Heap) (c : HCell) (r : Nat) (hr : r ≠ h.next) :
    lookupCell (alloc h c).1 r = lookupCell h r := by
  simp [lookupCell, alloc, lookupKey, Ne.symm hr]

theorem wfBound_alloc (h : Heap) (c : HCell) (hw : h.wfBound) :
    (alloc h c).1.wfBound := by
  intro p hp
  simp only [alloc, List.mem_cons] at hp
  show p.1 < h.next + 1
  rcases hp with rfl | hp
  · exact Nat.lt_succ_self _
  · exact Nat.lt_succ_of_lt (hw p hp)

theorem writeArr_lookup_other (h : Heap) (a b : Nat) (i : Nat) (x : HVal)
    (hab : a ≠ b) : lookupCell (writeArr h a i x) b = lookupCell h b := by
  unfold writeArr
  cases hc : lookupCell h a with
  | none => rfl
  | some c =>
      cases c with
      | arrC es => simp [lookupCell, lookupKey_setKey_other _ _ _ _ hab]
      | objC fs => rfl

/-- `dupVal` on a reference always allocates a fresh cell holding the
referent's one-level contents. -/
theorem dupVal_ref (h : Heap) (r0 : Nat) :
    dupVal h (.ref r0)
      = ((alloc h (shallowContents (lookupCell h r0))).1, .ref h.next) := by
  unfold dupVal
  cases hc : lookupCell h r0 with
  | none => simp [hc, shallowContents, alloc]
  | some c => cases c <;> simp [hc, shallowContents, alloc]

/-- Changing the pre-state heap of `DupRel` to one that looks up the
source reference identically. -/
theorem DupRel_base_change (h h1 h' : Heap) (v w : HVal)
    (hpres : ∀ r, v = .ref r → lookupCell h1 r = lookupCell h r)
    (hd : DupRel h1 h' v w) : DupRel h h' v w := by
  cases v with
  | ref r =>
      obtain ⟨r', hw, hne, ha, hb, hc⟩ := hd
      exact ⟨r', hw, hne, ha.trans (hpres r rfl), (hpres r rfl) ▸ hb, hc⟩
  | undefined => exact hd
  | null => exact hd
  | bool b => exact hd
  | num n => exact hd
  | str s => exact hd
  | func t => exact hd

/-- Invariant of the `duplicateProperties` loop: the allocation counter
only grows, well-formedness is preserved, pre-existing cells are
untouched, properties outside `props` keep their target values, and each
processed property satisfies `DupRel`. -/
theorem dupProps_go (src : List (String × HVal)) :
    ∀ (props : List String) (h : Heap) (tgt : List (String × HVal)),
      props.Nodup → h.wfBound →
      (∀ p r, getHF src p = .ref r → r < h.next) →
      h.next ≤ (duplicatePropertiesH h src tgt props).1.next ∧
      (duplicatePropertiesH h src tgt props).1.wfBound ∧
      (∀ r, r < h.next →
          lookupCell (duplicatePropertiesH h src tgt props).1 r = lookupCell h r) ∧
      (∀ q, q ∉ props →
          getHF (duplicatePropertiesH h src tgt props).2 q = getHF tgt q) ∧
      (∀ p ∈ props,
          DupRel h (duplicatePropertiesH h src tgt props).1 (getHF src p)
            (getHF (duplicatePropertiesH h src tgt props).2 p)) := by
  intro props
  induction props with
  | nil =>
      intro h tgt _ hw _
      exact ⟨Nat.le_refl _, hw, fun r _ => rfl, fun q _ => rfl,
        fun p hp => absurd hp (List.not_mem_nil p)⟩
  | cons p rest ih =>
      intro h tgt hnd hw hsrc
      obtain ⟨hp_rest, hnd_rest⟩ := List.nodup_cons.mp hnd
      -- the single step for property `p`
      cases hv : getHF src p with
      | ref r0 =>
          have hr0 : r0 < h.next := hsrc p r0 hv
          have hstep : duplicatePropertiesH h src tgt (p :: rest)
              = duplicatePropertiesH (alloc h (shallowContents (lookupCell h r0))).1
                  src (setKey tgt p (.ref h.next)) rest := by
            simp only [duplicatePropertiesH, List.foldl_cons, dupStep, hv, dupVal_ref]
          set c0 := shallowContents (lookupCell h r0) with hc0
          set h1 := (alloc h c0).1 with hh1
          have hnext1 : h1.next = h.next + 1 := rfl
          have hw1 : h1.wfBound := wfBound_alloc h c0 hw
          have hsrc1 : ∀ q r, getHF src q = .ref r → r < h1.next := fun q r hq =>
            Nat.lt_succ_of_lt (hsrc q r hq)
          obtain ⟨ih1, ih2, ih3, ih4, ih5⟩ :=
            ih h1 (setKey tgt p (.ref h.next)) hnd_rest hw1 hsrc1
          rw [hstep]
          have hpres1 : ∀ r, r < h.next →
              lookupCell (duplicatePropertiesH h1 src (setKey tgt p (.ref h.next)) rest).1 r
                = lookupCell h r := by
            intro r hr
            rw [ih3 r (by omega)]
            exact lookupCell_alloc_other h c0 r (by omega)
          refine ⟨by omega, ih2, hpres1, ?_, ?_⟩
          · intro q hq
            have hq_rest : q ∉ rest := fun hmem => hq (List.mem_cons_of_mem p hmem)
            have hq_p : p ≠ q := fun he => hq (he ▸ List.mem_cons_self p rest)
            rw [ih4 q hq_rest, getHF_setKey_other tgt p q _ hq_p]
          · intro p' hp'
            rcases List.mem_cons.mp hp' with rfl | hp'_rest
            · -- the head property itself
              have hval : getHF (duplicatePropertiesH h1 src
                  (setKey tgt p' (.ref h.next)) rest).2 p' = .ref h.next := by
                rw [ih4 p' hp_rest, getHF_setKey_same]
              rw [hv, hval]
              refine ⟨h.next, rfl, by omega, hpres1 r0 hr0, ?_, ?_⟩
              · rw [ih3 h.next (by omega), hh1, lookupCell_alloc_self]
              · intro i x
                exact writeArr_lookup_other _ h.next r0 i x (by omega)
            · -- a later property
              refine DupRel_base_change h h1 _ _ _ ?_ (ih5 p' hp'_rest)
              intro r hr
              exact lookupCell_alloc_other h c0 r (by
                have := hsrc p' r hr; omega)
      | undefined =>
          have hstep : duplicatePropertiesH h src tgt (p :: rest)
              = duplicatePropertiesH h src (setKey tgt p .undefined) rest := by
            simp only [duplicatePropertiesH, List.foldl_cons, dupStep, hv, dupVal]
          rw [hstep]
          obtain ⟨ih1, ih2, ih3, ih4, ih5⟩ := ih h (setKey tgt p .undefined) hnd_rest hw hsrc
          refine ⟨ih1, ih2, ih3, ?_, ?_⟩
          · intro q hq
            have hq_rest : q ∉ rest := fun hmem => hq (List.mem_cons_of_mem p hmem)
            have hq_p : p ≠ q := fun he => hq (he ▸ List.mem_cons_self p rest)
            rw [ih4 q hq_rest, getHF_setKey_other tgt p q _ hq_p]
          · intro p' hp'
            rcases List.mem_cons.mp hp' with rfl | hp'_rest
            · rw [hv]
              show getHF _ p' = .undefined
              rw [ih4 p' hp_rest, getHF_setKey_same]
            · exact ih5 p' hp'_rest
      | null =>
          have hstep : duplicatePropertiesH h src tgt (p :: rest)
              = duplicatePropertiesH h src (setKey tgt p .null) rest := by
            simp only [duplicatePropertiesH, List.foldl_cons, dupStep, hv, dupVal]
          rw [hstep]
          obtain ⟨ih1, ih2, ih3, ih4, ih5⟩ := ih h (setKey tgt p .null) hnd_rest hw hsrc
          refine ⟨ih1, ih2, ih3, ?_, ?_⟩
          · intro q hq
            have hq_rest : q ∉ rest := fun hmem => hq (List.mem_cons_of_mem p hmem)
            have hq_p : p ≠ q := fun he => hq (he ▸ List.mem_cons_self p rest)
            rw [ih4 q hq_rest, getHF_setKey_other tgt p q _ hq_p]
          · intro p' hp'
            rcases List.mem_cons.mp hp' with rfl | hp'_rest
            · rw [hv]
              show getHF _ p' = .null
              rw [ih4 p' hp_rest, getHF_setKey_same]
            · exact ih5 p' hp'_rest
      | bool b =>
          have hstep : duplicatePropertiesH h src tgt (p :: rest)
              = duplicatePropertiesH h src (setKey tgt p (.bool b)) rest := by
            simp only [duplicatePropertiesH, List.foldl_cons, dupStep, hv, dupVal]
          rw [hstep]
          obtain ⟨ih1, ih2, ih3, ih4, ih5⟩ := ih h (setKey tgt p (.bool b)) hnd_rest hw hsrc
          refine ⟨ih1, ih2, ih3, ?_, ?_⟩
          · intro q hq
            have hq_rest : q ∉ rest := fun hmem => hq (List.mem_cons_of_mem p hmem)
            have hq_p : p ≠ q := fun he => hq (he ▸ List.mem_cons_self p rest)
            rw [ih4 q hq_rest, getHF_setKey_other tgt p q _ hq_p]
          · intro p' hp'
            rcases List.mem_cons.mp hp' with rfl | hp'_rest
            · rw [hv]
              show getHF _ p' = .bool b
              rw [ih4 p' hp_rest, getHF_setKey_same]
            · exact ih5 p' hp'_rest
      | num n =>
          have hstep : duplicatePropertiesH h src tgt (p :: rest)
              = duplicatePropertiesH h src (setKey tgt p (.num n)) rest := by
            simp only [duplicatePropertiesH, List.foldl_cons, dupStep, hv, dupVal]
          rw [hstep]
          obtain ⟨ih1, ih2, ih3, ih4, ih5⟩ := ih h (setKey tgt p (.num n)) hnd_rest hw hsrc
          refine ⟨ih1, ih2, ih3, ?_, ?_⟩
          · intro q hq
            have hq_rest : q ∉ rest := fun hmem => hq (List.mem_cons_of_mem p hmem)
            have hq_p : p ≠ q := fun he => hq (he ▸ List.mem_cons_self p rest)
            rw [ih4 q hq_rest, getHF_setKey_other tgt p q _ hq_p]
          · intro p' hp'
            rcases List.mem_cons.mp hp' with rfl | hp'_rest
            · rw [hv]
              show getHF _ p' = .num n
              rw [ih4 p' hp_rest, getHF_setKey_same]
            · exact ih5 p' hp'_rest
      | str s =>
          have hstep : duplicatePropertiesH h src tgt (p :: rest)
              = duplicatePropertiesH h src (setKey tgt p (.str s)) rest := by
            simp only [duplicatePropertiesH, List.foldl_cons, dupStep, hv, dupVal]
          rw [hstep]
          obtain ⟨ih1, ih2, ih3, ih4, ih5⟩ := ih h (setKey tgt p (.str s)) hnd_rest hw hsrc
          refine ⟨ih1, ih2, ih3, ?_, ?_⟩
          · intro q hq
            have hq_rest : q ∉ rest := fun hmem => hq (List.mem_cons_of_mem p hmem)
            have hq_p : p ≠ q := fun he => hq (he ▸ List.mem_cons_self p rest)
            rw [ih4 q hq_rest, getHF_setKey_other tgt p q _ hq_p]
          · intro p' hp'
            rcases List.mem_cons.mp hp' with rfl | hp'_rest
            · rw [hv]
              show getHF _ p' = .str s
              rw [ih4 p' hp_rest, getHF_setKey_same]
            · exact ih5 p' hp'_rest
      | func t =>
          have hstep : duplicatePropertiesH h src tgt (p :: rest)
              = duplicatePropertiesH h src (setKey tgt p (.func t)) rest := by
            simp only [duplicatePropertiesH, List.foldl_cons, dupStep, hv, dupVal]
          rw [hstep]
          obtain ⟨ih1, ih2, ih3, ih4, ih5⟩ := ih h (setKey tgt p (.func t)) hnd_rest hw hsrc
          refine ⟨ih1, ih2, ih3, ?_, ?_⟩
          · intro q hq
            have hq_rest : q ∉ rest := fun hmem => hq (List.mem_cons_of_mem p hmem)
            have hq_p : p ≠ q := fun he => hq (he ▸ List.mem_cons_self p rest)
            rw [ih4 q hq_rest, getHF_setKey_other tgt p q _ hq_p]
          · intro p' hp'
            rcases List.mem_cons.mp hp' with rfl | hp'_rest
            · rw [hv]
              show getHF _ p' = .func t
              rw [ih4 p' hp_rest, getHF_setKey_same]
            · exact ih5 p' hp'_rest

/-- Claim C5 is false as stated: with a nested array (`tags = [[1]]`),
`copy()` allocates a fresh outer cell (2) but its element is the *same*
inner reference (1) as the source's — the copy aliases a mutable
structure with the source — and a write through the copy's
`tags[0]` (cell 1) is observable through the source's `tags[0]`. -/
theorem c5_counterexample :
    (copyH c5heap c5src [] ["tags"] "id").2 = [("tags", .ref 2), ("id", .undefined)] ∧
    lookupCell (copyH c5heap c5src [] ["tags"] "id").1 2 = some (.arrC [.ref 1]) ∧
    lookupCell (copyH c5heap c5src [] ["tags"] "id").1 0 = some (.arrC [.ref 1]) ∧
    lookupCell (copyH c5heap c5src [] ["tags"] "id").1 1 = some (.arrC [.num 1]) ∧
    lookupCell (writeArr (copyH c5heap c5src [] ["tags"] "id").1 1 0 (.num 99)) 1
      = some (.arrC [.num 99]) :=
  ⟨by decide, by decide, by decide, by decide, by decide⟩

/-- Claim C5 (amended): `copy()` yields an instance with the same value
for every declared property plus the id field, where array/object-valued
properties are copied one level deep: the copy's property holds a fresh
reference to a cell with the same one-level contents, so mutating the
copy's own array leaves the source's cell untouched (nested mutable
elements, however, remain shared, as the counterexample shows). -/
theorem c5_copy_shallow (h : Heap) (src tgt0 : List (String × HVal))
    (props : List String) (idField : String)
    (hnd : props.Nodup)
    (hw : ∀ p ∈ h.cells, p.1 < h.next)
    (hsrcb : ∀ kv ∈ src, hvalRefBound h.next kv.2 = true)
    (hid : idField ∉ props) :
    getHF (copyH h src tgt0 props idField).2 idField = getHF src idField ∧
    ∀ p ∈ props,
      DupRel h (copyH h src tgt0 props idField).1 (getHF src p)
        (getHF (copyH h src tgt0 props idField).2 p) := by
  have hsrc : ∀ p r, getHF src p = .ref r → r < h.next := by
    intro p r hpr
    unfold getHF at hpr
    cases hl : lookupKey src p with
    | none => rw [hl] at hpr; simp at hpr
    | some v =>
        rw [hl] at hpr
        simp only [Option.getD_some] at hpr
        subst hpr
        have hm := lookupKey_mem hl
        simpa [hvalRefBound] using hsrcb (p, .ref r) hm
  obtain ⟨h1, h2, h3, h4, h5⟩ := dupProps_go src props h tgt0 hnd hw hsrc
  constructor
  · show getHF (setKey (duplicatePropertiesH h src tgt0 props).2 idField
        (getHF src idField)) idField = _
    exact getHF_setKey_same _ _ _
  · intro p hp
    have hpn : idField ≠ p := fun he => hid (he ▸ hp)
    show DupRel h (duplicatePropertiesH h src tgt0 props).1 (getHF src p)
        (getHF (setKey (duplicatePropertiesH h src tgt0 props).2 idField
          (getHF src idField)) p)
    rw [getHF_setKey_other _ _ _ _ hpn]
    exact h5 p hp

/-- Witness for the amended C5 at a flat array-valued property: the id
value is copied and the `tags` property satisfies the shallow-duplicate
relation. -/
theorem c5_copy_shallow_witness :
    getHF (copyH c5heapW c5srcW [] ["tags"] "id").2 "id" = .num 7 ∧
    DupRel c5heapW (copyH c5heapW c5srcW [] ["tags"] "id").1
      (getHF c5srcW "tags") (getHF (copyH c5heapW c5srcW [] ["tags"] "id").2 "tags") := by
  have h := c5_copy_shallow c5heapW c5srcW [] ["tags"] "id"
    (by decide) (by decide) (by decide) (by decide)
  exact ⟨h.1.trans (by decide), h.2 "tags" (by decide)⟩

end EmberRest
